import Mathlib

/-!
Verification development for the sysmon configuration converter/merger.

The development shallowly embeds the two algorithmic subsystems of the
repository:

* the generic `Value` tree model (src/model/types.rs) together with the
  markup reader (src/converter/xml.rs, `read_next_value`) and the tree
  writer (src/converter/json.rs, `write_value`), both modelled at the level
  of the XML event stream that quick_xml exposes (start / text / end /
  empty-element events); the surrounding tokenizer is an external
  collaborator and is not part of the core;
* the merge engine (src/merger/mod.rs): the stack-based XML ingestion loop
  of `process_xml_file`, the structured ingestion of `process_json_value`,
  the consolidation of `build_merged_config`, and the write/validate
  sequencing of `merge_configs`, with the external parser/validator
  abstracted as a boolean gate on the merged tree;
* the path normalizer `normalize_path` (src/preprocessor/path.rs).

Rust `HashMap`s / `serde_json::Map`s are modelled as association lists with
a replace-on-insert operation (`insertR`); map iteration order, which is
unspecified for Rust's `HashMap`, is fixed to insertion order in the model.
`serde_json::Number` is modelled by `Int`; no claim depends on numeric
values.  Recursive source loops that consume a shared reader are modelled
with an explicit fuel parameter and return the unconsumed event suffix;
every recursive call burns one unit of fuel and the top-level wrappers pass
`2 * length + 2` units, which strictly dominates the total number of calls
(each call either terminates without recursing or consumes at least one
event, and one inner-loop iteration performs at most two calls per consumed
event), so the fuel never runs out for the wrapped entry points.
-/

/-- The `Value` enum of src/model/types.rs (also standing in for
`serde_json::Value`, whose shape is identical and which
`convert_json_value` maps structurally onto `Value`). -/
inductive Val where
  | null : Val
  | bool (b : Bool) : Val
  | num (n : Int) : Val
  | str (s : String) : Val
  | arr (l : List Val) : Val
  | obj (l : List (String × Val)) : Val

/-- quick_xml events as consumed/produced by the repository: element start
with attributes, text, element end, and self-closing (empty) elements. -/
inductive XEvent where
  | start (name : String) (attrs : List (String × String)) : XEvent
  | text (s : String) : XEvent
  | done (name : String) : XEvent
  | empty (name : String) (attrs : List (String × String)) : XEvent

/-- Map insert with replacement: the model of `HashMap::insert` /
`Map::insert` on the association-list representation of objects. -/
def insertR (l : List (String × Val)) (k : String) (v : Val) : List (String × Val) :=
  l.filter (fun p => !(p.1 == k)) ++ [(k, v)]

/-- Key lookup on an object, the model of `map.get(key)`. -/
def vlookup : List (String × Val) → String → Option Val
  | [], _ => none
  | (k, v) :: t, key => if k = key then some v else vlookup t key

/-- `value.get(key)` on a `Value`: a string key retrieves from objects and
from nothing else (matching serde_json, where a string index on a
non-object yields `None`, and matching the explicit
`if let Value::Object(..)` patterns in the merger). -/
def getKey : Val → String → Option Val
  | .obj l, key => vlookup l key
  | _, _ => none

/-- `format!("@{}", key)`: attribute keys carry a leading `@` sentinel. -/
def attrKey (k : String) : String := ⟨'@' :: k.data⟩

/-- `str::starts_with` (stated over the character lists so that it
evaluates by reduction). -/
def strStartsWith (s pre : String) : Bool := pre.data.isPrefixOf s.data

/-- Collect an attribute list into `@`-prefixed string entries, as both the
converter reader and the merger's event loop do. -/
def attrsToObj (attrs : List (String × String)) : List (String × Val) :=
  attrs.foldl (fun o kv => insertR o (attrKey kv.1) (Val.str kv.2)) []

/-- Unicode white-space (the `White_Space` property), the character class
trimmed by Rust's `str::trim`. -/
def isWS (c : Char) : Bool :=
  let n := c.toNat
  decide ((9 ≤ n ∧ n ≤ 13) ∨ n = 32 ∨ n = 133 ∨ n = 160 ∨ n = 5760 ∨
    (8192 ≤ n ∧ n ≤ 8202) ∨ n = 8232 ∨ n = 8233 ∨ n = 8239 ∨ n = 8287 ∨ n = 12288)

/-- Drop leading and trailing white-space from a character list. -/
def trimChars (l : List Char) : List Char :=
  ((l.dropWhile isWS).reverse.dropWhile isWS).reverse

/-- Rust's `str::trim` on the string model. -/
def trimS (s : String) : String := ⟨trimChars s.data⟩

/-! ### The markup reader of src/converter/xml.rs

`read_next_value` is translated bug-for-bug.  In the source, the inner
loop's end-tag arm is
`Ok(Event::End(ref e)) if e.name().as_ref() == e.name().as_ref()` - the
binding `ref e` shadows the outer start event, so the guard compares the
end event's name with itself and is always true: ANY end tag terminates
the inner loop, not just the matching one.  Both loops silently skip
events not matched by an explicit arm (in particular `End` in the outer
loop and `Empty` in both).  The recursive call for a nested element is
made after the child's start event has already been consumed, so the
recursion sees the interior of the child, not the child itself. -/

mutual

/-- The outer loop of `read_next_value` (src/converter/xml.rs, lines
41-113): returns the parsed value (if any) and the unconsumed events. -/
def readValueF : Nat → List XEvent → Option Val × List XEvent
  | 0, evs => (none, evs)
  | _ + 1, [] => (none, [])
  | f + 1, .start name attrs :: rest =>
    let obj0 := attrsToObj attrs
    let r := readInnerF f rest
    let txt := r.1
    let children := r.2.1
    let rest1 := r.2.2
    let obj1 := if (trimChars txt.data).isEmpty then obj0
      else insertR obj0 "$text" (Val.str (trimS txt))
    let obj2 := children.foldl (fun o kv => insertR o kv.1 kv.2) obj1
    (some (Val.obj (insertR [] name (Val.obj obj2))), rest1)
  | f + 1, .text s :: rest =>
    if (trimChars s.data).isEmpty then readValueF f rest
    else (some (Val.str (trimS s)), rest)
  | f + 1, .done _ :: rest => readValueF f rest
  | f + 1, .empty _ _ :: rest => readValueF f rest

/-- The inner (element-interior) loop of `read_next_value`: accumulated
text, the ordered child insertions, and the unconsumed events.  The child
list may contain repeated names; merging it into the object with
replace-on-insert reproduces `obj.extend(children)` over the map that the
source accumulates. -/
def readInnerF : Nat → List XEvent → String × List (String × Val) × List XEvent
  | 0, evs => ("", [], evs)
  | _ + 1, [] => ("", [], [])
  | f + 1, .start cname _ :: rest =>
    match readValueF f rest with
    | (some cv, rest1) =>
      let r := readInnerF f rest1
      (r.1, (cname, cv) :: r.2.1, r.2.2)
    | (none, rest1) => readInnerF f rest1
  | f + 1, .text s :: rest =>
    let r := readInnerF f rest
    (s ++ r.1, r.2.1, r.2.2)
  | _ + 1, .done _ :: rest => ("", [], rest)
  | f + 1, .empty _ _ :: rest => readInnerF f rest

end

/-- `read_next_value` applied to a complete event stream (ample fuel, see
the header note). -/
def read_next_value (evs : List XEvent) : Option Val × List XEvent :=
  readValueF (2 * evs.length + 2) evs

/-! ### The tree writer of src/converter/json.rs -/

/-- `write_value` (src/converter/json.rs, lines 27-108), producing the
event stream it feeds to the quick_xml writer.  Attributes must be string
valued (others are silently skipped); `$text` is emitted as text when a
string; `$children` is emitted as anonymous children when an array; all
remaining keys not starting with `@` or `$` become named child elements;
arrays are unwrapped into repeated siblings under the same name; scalars
become a named element around their text, or bare text with no name;
`Null` becomes an empty element, or nothing with no name. -/
def writeValueF : Nat → Option String → Val → List XEvent
  | 0, _, _ => []
  | f + 1, name, .obj l =>
    let tag := name.getD "root"
    let attrs := l.filterMap fun kv =>
      if strStartsWith kv.1 "@" then
        match kv.2 with
        | .str s => some (String.mk (kv.1.data.drop 1), s)
        | _ => none
      else none
    let textEvs : List XEvent := match vlookup l "$text" with
      | some (.str t) => [.text t]
      | _ => []
    let childEvs : List XEvent := match vlookup l "$children" with
      | some (.arr cs) => cs.foldr (fun c acc => writeValueF f none c ++ acc) []
      | _ => []
    let elemEvs : List XEvent := l.foldr
      (fun kv acc =>
        if strStartsWith kv.1 "$" || strStartsWith kv.1 "@" then acc
        else writeValueF f (some kv.1) kv.2 ++ acc) []
    [XEvent.start tag attrs] ++ textEvs ++ childEvs ++ elemEvs ++ [XEvent.done tag]
  | f + 1, name, .arr l => l.foldr (fun x acc => writeValueF f name x ++ acc) []
  | _ + 1, name, .str s =>
    match name with
    | some t => [.start t [], .text s, .done t]
    | none => [.text s]
  | _ + 1, name, .num n =>
    match name with
    | some t => [.start t [], .text (toString n), .done t]
    | none => [.text (toString n)]
  | _ + 1, name, .bool b =>
    match name with
    | some t => [.start t [], .text (toString b), .done t]
    | none => [.text (toString b)]
  | _ + 1, name, .null =>
    match name with
    | some t => [.empty t []]
    | none => []

/-- `write_value` with ample fuel (the recursion depth is bounded by the
tree depth, far below this bound for every input considered here). -/
def write_value (name : Option String) (v : Val) : List XEvent :=
  writeValueF 1000 name v

/-! ### The merge engine of src/merger/mod.rs -/

/-- Errors of the merge pipeline that the model can produce
(`ConversionError::ValidationError` and `ConversionError::InvalidFile`). -/
inductive MergeErr where
  | validationError : MergeErr
  | invalidFile : MergeErr
deriving DecidableEq

/-- The run-scoped accumulator of `ConfigMerger`: the first-seen schema
version and the collected rule records. -/
structure MSt where
  version : Option String
  rules : List Val
deriving Inhabited

/-- The in-flight state of `process_xml_file`'s event loop: the merger
fields plus the element stack (name, attribute map, content map) and the
`in_event_filtering` flag. -/
structure PSt where
  version : Option String
  rules : List Val
  stack : List (String × List (String × Val) × List (String × Val))
  inEF : Bool

/-- Per-attribute schema-version capture of `process_xml_file`: while
walking the attributes of a start tag named `Sysmon`, the first
`schemaversion` attribute is captured if no version has been captured
yet. -/
def versionAfterAttrs (name : String) (v0 : Option String)
    (attrs : List (String × String)) : Option String :=
  attrs.foldl
    (fun v kv => if name = "Sysmon" ∧ kv.1 = "schemaversion" ∧ v = none
      then some kv.2 else v) v0

/-- Splitting a closed `RuleGroup` object into rule records
(src/merger/mod.rs, lines 147-162): one record per key that is neither
`@`-prefixed nor literally `RuleGroup`, each bundling all `@`-prefixed
entries of the group with that single key. -/
def ruleRecordsOf (g : List (String × Val)) : List Val :=
  g.filterMap fun kv =>
    if strStartsWith kv.1 "@" = false ∧ kv.1 ≠ "RuleGroup" then
      some (Val.obj (g.filter (fun p => strStartsWith p.1 "@") ++ [(kv.1, kv.2)]))
    else none

/-- One step of `process_xml_file`'s event loop.  On `End`, the top stack
frame is popped unconditionally (name matching is not checked), its
content map is merged over its attribute map, rule records are extracted
when the popped element is a `RuleGroup` under an open `EventFiltering`,
the object is inserted into the parent frame's content, and the
`in_event_filtering` flag is cleared when the end tag is named
`EventFiltering`.  Events with no explicit arm (`Empty`, comments, ...)
are ignored. -/
def xmlStep (st : PSt) : XEvent → PSt
  | .start name attrs =>
    { st with
      version := versionAfterAttrs name st.version attrs
      stack := (name, attrsToObj attrs, []) :: st.stack
      inEF := if name = "EventFiltering" then true else st.inEF }
  | .text s =>
    match st.stack with
    | [] => st
    | (n, a, c) :: rest =>
      if (trimChars s.data).isEmpty then st
      else { st with stack := (n, a, insertR c "$text" (Val.str (trimS s))) :: rest }
  | .done ename =>
    let st1 := match st.stack with
      | [] => st
      | (n, a, c) :: rest =>
        let obj := c.foldl (fun o kv => insertR o kv.1 kv.2) a
        let rules1 := if n = "RuleGroup" ∧ st.inEF = true
          then st.rules ++ ruleRecordsOf obj else st.rules
        let stack1 := match rest with
          | [] => ([] : List (String × List (String × Val) × List (String × Val)))
          | (pn, pa, pc) :: r2 => (pn, pa, insertR pc n (.obj obj)) :: r2
        { st with rules := rules1, stack := stack1 }
    if ename = "EventFiltering" then { st1 with inEF := false } else st1
  | .empty _ _ => st

/-- `process_xml_file` on the event stream of one document: the loop runs
to end-of-input and the leftover stack (unclosed elements) is discarded,
as in the source, where the loop breaks on `Eof`. -/
def process_xml_events (m : MSt) (evs : List XEvent) : MSt :=
  let f := evs.foldl xmlStep ⟨m.version, m.rules, [], false⟩
  ⟨f.version, f.rules⟩

/-- `process_json_value` (src/merger/mod.rs, lines 183-218): top level must
be an object; the first string-valued `@schemaversion` seen across the run
is captured; `EventFiltering.RuleGroup` entries are pushed verbatim,
an array element-wise and anything else as a single record. -/
def process_json_value (m : MSt) : Val → Except MergeErr MSt
  | .obj o =>
    let version1 := if m.version = none then
        match vlookup o "@schemaversion" with
        | some (.str s) => some s
        | _ => m.version
      else m.version
    let newRules := match vlookup o "EventFiltering" with
      | some ef =>
        match getKey ef "RuleGroup" with
        | some (.arr xs) => xs
        | some rg => [rg]
        | none => []
      | none => []
    .ok ⟨version1, m.rules ++ newRules⟩
  | _ => .error .invalidFile

/-- One ingested document: the markup form as its event stream, or the
structured form as its decoded value.  (External schema validation of
markup inputs is a black-box collaborator and is not modelled; a run in
which it rejects a document aborts before contributing anything.) -/
inductive MergeDoc where
  | xml (events : List XEvent) : MergeDoc
  | json (j : Val) : MergeDoc

/-- Ingest one document into the merger state. -/
def ingestDoc (m : MSt) : MergeDoc → Except MergeErr MSt
  | .xml evs => .ok (process_xml_events m evs)
  | .json j => process_json_value m j

/-- The collect phase of `merge_directory`, also counting how many
documents were read (the document on which ingestion fails has already
been read when the failure surfaces). -/
def collectAux : List MergeDoc → Nat → MSt → Nat × Except MergeErr MSt
  | [], n, m => (n, .ok m)
  | d :: rest, n, m =>
    match ingestDoc m d with
    | .ok m1 => collectAux rest (n + 1) m1
    | .error e => (n + 1, .error e)

/-- Collect phase from the fresh `ConfigMerger::new` state. -/
def collectRun (docs : List MergeDoc) : Nat × Except MergeErr MSt :=
  collectAux docs 0 ⟨none, []⟩

/-- The merger state after ingesting a document list. -/
def collectDocs (docs : List MergeDoc) : Except MergeErr MSt :=
  (collectRun docs).2

/-- `build_merged_config` (src/merger/mod.rs, lines 220-269), the pure
consolidation part: root with the first-seen schema version (fallback
"4.30"); if any rule records were collected, one `EventFiltering` child
holding one `RuleGroup` named `MergedRules` with `groupRelation` `or`;
if any record carries a `ProcessCreate` key, a single combined
`ProcessCreate` block with `onmatch` `include` whose `Image` entry is the
array of the `Image` entries pulled from the collected `ProcessCreate`
blocks, in collection order. -/
def build_merged_config (m : MSt) : Val :=
  let version := m.version.getD "4.30"
  let root0 := insertR [] "@schemaversion" (Val.str version)
  if m.rules.isEmpty then .obj root0
  else
    let rg0 := insertR (insertR [] "@name" (Val.str "MergedRules"))
      "@groupRelation" (Val.str "or")
    let pcs := m.rules.filterMap fun r => getKey r "ProcessCreate"
    let rg1 :=
      if pcs.isEmpty then rg0
      else
        let images := pcs.filterMap fun pc => getKey pc "Image"
        let cpc := insertR (insertR [] "@onmatch" (Val.str "include"))
          "Image" (Val.arr images)
        insertR rg0 "ProcessCreate" (.obj cpc)
    let efMap := insertR [] "RuleGroup" (.obj rg1)
    .obj (insertR root0 "EventFiltering" (.obj efMap))

/-- `build_merged_config` including its trailing consistency gate: the
merged tree is serialized to markup and pushed through the external
parser/validator, abstracted as a boolean gate on the merged tree (the
serialization is a pure function of it); both a parse failure and a
validation failure surface as `ValidationError` in the source. -/
def build_merged_checked (gate : Val → Bool) (m : MSt) : Except MergeErr Val :=
  let v := build_merged_config m
  if gate v then .ok v else .error .validationError

/-- The observable outcome of one `merge_configs` run: how many input
documents were read, which output files were written (tagged by their
text form), and the result. -/
structure MergeOutcome where
  docsRead : Nat
  writes : List String
  result : Except MergeErr Unit

/-- `merge_configs` (src/merger/mod.rs, lines 391-464): collect and build
first (including the post-merge validation gate); only then dispatch on
the output extension - `json` writes directly, `xml` re-validates through
the same gate and then writes, anything else is `InvalidFile`.  No file is
written on any error path. -/
def merge_configs (gate : Val → Bool) (docs : List MergeDoc) (ext : String) :
    MergeOutcome :=
  match collectRun docs with
  | (n, .error e) => ⟨n, [], .error e⟩
  | (n, .ok m) =>
    match build_merged_checked gate m with
    | .error e => ⟨n, [], .error e⟩
    | .ok merged =>
      if ext = "json" then ⟨n, ["json"], .ok ()⟩
      else if ext = "xml" then
        if gate merged then ⟨n, ["xml"], .ok ()⟩
        else ⟨n, [], .error .validationError⟩
      else ⟨n, [], .error .invalidFile⟩

/-- The schema version a single document carries, as the engine extracts
it: for markup, the first `schemaversion` attribute of a `Sysmon`-named
start tag, in document order; for the structured form, a string-valued
`@schemaversion` member of the top-level object. -/
def evVersion : XEvent → Option String
  | .start name attrs =>
    if name = "Sysmon" then (attrs.find? (fun kv => kv.1 == "schemaversion")).map (·.2)
    else none
  | _ => none

/-- First-capturable schema version of one document. -/
def docVersion : MergeDoc → Option String
  | .xml evs => (evs.filterMap evVersion).head?
  | .json j =>
    match j with
    | .obj o =>
      match vlookup o "@schemaversion" with
      | some (.str s) => some s
      | _ => none
    | _ => none

/-- First-of-two on options (`if is_none then try-set` as a fold step). -/
def oFirst (a b : Option String) : Option String :=
  match a with
  | some x => some x
  | none => b

/-! ### The path normalizer of src/preprocessor/path.rs -/

/-- `PreprocessError` as far as `normalize_path` is concerned: the
function's signature is fallible but no path of its body produces an
error. -/
inductive PreprocessErr where
  | pathError : PreprocessErr
deriving DecidableEq

/-- `str::replace('/', "\\")`. -/
def slashFix (s : String) : String :=
  ⟨s.data.map fun c => if c = '/' then '\\' else c⟩

/-- `str::trim_end_matches('\\')`: drop every trailing backslash. -/
def dropTrailingBS (s : String) : String :=
  ⟨(s.data.reverse.dropWhile (fun c => c == '\\')).reverse⟩

/-- `char::to_ascii_uppercase` on the first character, if any. -/
def upperFirstAscii (s : String) : String :=
  match s.data with
  | [] => ⟨[]⟩
  | c :: t => ⟨(if 'a' ≤ c ∧ c ≤ 'z' then Char.ofNat (c.toNat - 32) else c) :: t⟩

/-- `normalize_path` (src/preprocessor/path.rs, lines 96-121): trim the
input; a UNC path (leading `\\`) has its forward slashes converted; a
drive-letter path (second character `:` - the source's additional byte
length test is implied by the second character existing) is
slash-converted, stripped of trailing backslashes, and gets its first
character ASCII-uppercased; anything else is returned as trimmed.  Every
path returns `Ok`. -/
def normalize_path (path : String) : Except PreprocessErr String :=
  let p := trimS path
  if strStartsWith p "\\\\" then .ok (slashFix p)
  else if p.data[1]? = some ':' then
    .ok (upperFirstAscii (dropTrailingBS (slashFix p)))
  else .ok p

/-! ### Well-formedness of markup event streams and the text invariant -/

/-- Tag names of a real markup document can never be the reserved key
`$text` (XML names cannot start with `$`), which is all the reader's text
invariant needs. -/
def goodNames (evs : List XEvent) : Bool :=
  evs.all fun e =>
    match e with
    | .start n _ => !(n == "$text")
    | _ => true

/-- A value that is a stored, trimmed, non-empty text payload. -/
def okStr (v : Val) : Prop :=
  ∃ s, v = Val.str s ∧ s ≠ "" ∧ trimS s = s

/-- Every object anywhere in the value keeps only trimmed, non-empty
strings under the reserved `$text` key. -/
inductive TextOk : Val → Prop where
  | null : TextOk .null
  | bool (b : Bool) : TextOk (.bool b)
  | num (n : Int) : TextOk (.num n)
  | str (s : String) : TextOk (.str s)
  | arr (l : List Val) (h : ∀ v, v ∈ l → TextOk v) : TextOk (.arr l)
  | obj (l : List (String × Val))
      (h1 : ∀ kv, kv ∈ l → TextOk kv.2)
      (h2 : ∀ kv, kv ∈ l → kv.1 = "$text" → okStr kv.2) : TextOk (.obj l)

/-- The object-entry invariant used while assembling a reader object. -/
def EOk (l : List (String × Val)) : Prop :=
  ∀ kv ∈ l, TextOk kv.2 ∧ (kv.1 = "$text" → okStr kv.2)

/-! ### Concrete inputs used by witnesses and counterexamples -/

/-- A collision-free tree with one nested element carrying text. -/
def vC2 : Val := Val.obj [("child", Val.obj [("$text", Val.str "x")])]

/-- Event stream of `<A><B>t</B><B>u</B></A>`: two same-tag siblings. -/
def evtsC7 : List XEvent :=
  [.start "A" [], .start "B" [], .text "t", .done "B",
   .start "B" [], .text "u", .done "B", .done "A"]

/-- Event stream of a `Sysmon` root with a schema version and text. -/
def evtsC8 : List XEvent :=
  [.start "Sysmon" [("schemaversion", "4.30")], .text "  hi  ", .done "Sysmon"]

/-- Structured single-rule document with image path `A.exe`. -/
def jA : Val :=
  Val.obj [("@schemaversion", Val.str "4.30"),
    ("EventFiltering", Val.obj [("RuleGroup", Val.obj
      [("@name", Val.str "t1"), ("@groupRelation", Val.str "or"),
       ("ProcessCreate", Val.obj [("@onmatch", Val.str "include"),
         ("Image", Val.obj [("@condition", Val.str "is"),
           ("$text", Val.str "A.exe")])])])])]

/-- Structured single-rule document with image path `B.exe`. -/
def jB : Val :=
  Val.obj [("@schemaversion", Val.str "4.30"),
    ("EventFiltering", Val.obj [("RuleGroup", Val.obj
      [("@name", Val.str "t2"), ("@groupRelation", Val.str "or"),
       ("ProcessCreate", Val.obj [("@onmatch", Val.str "include"),
         ("Image", Val.obj [("@condition", Val.str "is"),
           ("$text", Val.str "B.exe")])])])])]

/-- The two-document run of the spec's merge example. -/
def docsC1 : List MergeDoc := [.json jA, .json jB]

/-- The rule record collected from `jA`. -/
def rgA : Val :=
  Val.obj [("@name", Val.str "t1"), ("@groupRelation", Val.str "or"),
    ("ProcessCreate", Val.obj [("@onmatch", Val.str "include"),
      ("Image", Val.obj [("@condition", Val.str "is"),
        ("$text", Val.str "A.exe")])])]

/-- The rule record collected from `jB`. -/
def rgB : Val :=
  Val.obj [("@name", Val.str "t2"), ("@groupRelation", Val.str "or"),
    ("ProcessCreate", Val.obj [("@onmatch", Val.str "include"),
      ("Image", Val.obj [("@condition", Val.str "is"),
        ("$text", Val.str "B.exe")])])]

/-- Two documents carrying different schema versions and no rules. -/
def docsC3 : List MergeDoc :=
  [.json (Val.obj [("@schemaversion", Val.str "9.99")]),
   .json (Val.obj [("@schemaversion", Val.str "1.11")])]

/-- A rule record whose only event type is not process creation. -/
def rgNC : Val :=
  Val.obj [("@name", Val.str "g"),
    ("NetworkConnect", Val.obj [("@onmatch", Val.str "include")])]

/-- One structured document contributing only the non-matching record. -/
def docsC4 : List MergeDoc :=
  [.json (Val.obj [("EventFiltering", Val.obj [("RuleGroup", rgNC)])])]

/-- A validator gate that rejects everything. -/
def gateFalse : Val → Bool := fun _ => false

/-- A validator gate that accepts everything. -/
def gateTrue : Val → Bool := fun _ => true

/-- One well-formed (empty) structured document. -/
def docsC6 : List MergeDoc := [.json (Val.obj [])]

/-- Event stream of a rule group nested inside a rule group:
`<EventFiltering><RuleGroup name="g"><RuleGroup name="inner"/>
<ProcessCreate/></RuleGroup></EventFiltering>` with explicit end tags. -/
def evtsC10 : List XEvent :=
  [.start "EventFiltering" [], .start "RuleGroup" [("name", "g")],
   .start "RuleGroup" [("name", "inner")], .done "RuleGroup",
   .start "ProcessCreate" [], .done "ProcessCreate",
   .done "RuleGroup", .done "EventFiltering"]

/-- The outer rule-group object popped while processing `evtsC10`. -/
def gOuterC10 : List (String × Val) :=
  [("@name", Val.str "g"),
   ("RuleGroup", Val.obj [("@name", Val.str "inner")]),
   ("ProcessCreate", Val.obj [])]

/-- A parser state about to pop a `RuleGroup` frame under an open
`EventFiltering`. -/
def stC10 : PSt :=
  ⟨none, [],
   [("RuleGroup", [("@name", Val.str "g")], [("ProcessCreate", Val.obj [])])],
   true⟩

/-! ## Generic helper lemmas -/

theorem dropWhile_eq_self_of_prefix {α : Type} (p : α → Bool) (r t : List α)
    (h : (r ++ t).dropWhile p = r ++ t) : r.dropWhile p = r := by
  cases r with
  | nil => rfl
  | cons c r' =>
    by_cases hc : p c
    · exfalso
      rw [List.cons_append, List.dropWhile_cons_of_pos hc] at h
      have hle := (List.dropWhile_suffix (l := r' ++ t) (p := p)).length_le
      rw [h] at hle
      simp [List.length_cons, List.length_append] at hle
    · exact List.dropWhile_cons_of_neg hc

theorem trimChars_eq_rdrop (l : List Char) :
    trimChars l = (l.dropWhile isWS).rdropWhile isWS := rfl

theorem trimChars_idem (l : List Char) : trimChars (trimChars l) = trimChars l := by
  rw [trimChars_eq_rdrop, trimChars_eq_rdrop]
  obtain ⟨t, ht⟩ := List.rdropWhile_prefix (p := isWS) (l := l.dropWhile isWS)
  have key : ((l.dropWhile isWS).rdropWhile isWS).dropWhile isWS
      = (l.dropWhile isWS).rdropWhile isWS := by
    apply dropWhile_eq_self_of_prefix isWS _ t
    rw [ht]
    exact List.dropWhile_idempotent isWS l
  rw [key]
  exact List.rdropWhile_idempotent isWS (l.dropWhile isWS)

theorem trimS_idem (s : String) : trimS (trimS s) = trimS s :=
  congrArg String.mk (trimChars_idem s.data)

theorem mem_insertR {l : List (String × Val)} {k : String} {v : Val}
    {x : String × Val} (hx : x ∈ insertR l k v) : x ∈ l ∨ x = (k, v) := by
  rcases List.mem_append.1 hx with h | h
  · exact Or.inl (List.mem_filter.1 h).1
  · exact Or.inr (List.mem_singleton.1 h)

theorem attrKey_ne_text (k : String) : attrKey k ≠ "$text" := by
  intro h
  have hd : '@' :: k.data = ['$', 't', 'e', 'x', 't'] := congrArg String.data h
  injection hd with h1 _
  exact absurd h1 (by decide)

theorem length_filterMap_eq_countP {α β : Type} (f : α → Option β) (l : List α) :
    (l.filterMap f).length = l.countP (fun x => (f x).isSome) := by
  induction l with
  | nil => rfl
  | cons a t ih =>
    cases h : f a with
    | none => simp [List.filterMap_cons, h, List.countP_cons, ih]
    | some b => simp [List.filterMap_cons, h, List.countP_cons, ih]

/-! ## C2 and C7: the converter's markup reader -/

/-- C2: the spec claims that for every collision-free tree `v`, re-parsing
the markup written for `v` reconstructs `v`.  The code refutes it: the
reader's end-tag guard compares the end event's name with itself, so the
inner loop stops at the first close tag it meets, and the recursive call
sees a child's interior rather than the child.  For the collision-free
tree `vC2` the round trip yields an object whose `child` entry is the bare
string `x` instead of the object containing the `$text` entry, and the
tree `v` is not reconstructed under any reading of the wrapping. -/
theorem c2_roundtrip_code_bug :
    (read_next_value (write_value (some "root") vC2)).1
        = some (Val.obj [("root", Val.obj [("child", Val.str "x")])]) ∧
    getKey vC2 "child" = some (Val.obj [("$text", Val.str "x")]) ∧
    Val.str "x" ≠ Val.obj [("$text", Val.str "x")] ∧
    getKey (Val.obj [("root", Val.obj [("child", Val.str "x")])]) "child" = none :=
  ⟨rfl, rfl, fun h => Val.noConfusion h, rfl⟩

/-- C7: the spec claims that among same-tag siblings the LAST one wins in
the reader's map.  The code refutes it: on `<A><B>t</B><B>u</B></A>` the
self-comparing end-tag guard makes the interior loop of `A` stop at
`</B>`, so the map keeps the value from the FIRST sibling and the content
`u` of the second sibling is never read. -/
theorem c7_last_sibling_code_bug :
    (read_next_value evtsC7).1
        = some (Val.obj [("A", Val.obj [("B", Val.str "t")])]) ∧
    Val.str "t" ≠ Val.str "u" :=
  ⟨rfl, fun h => by injection h with h1; exact absurd h1 (by decide)⟩

/-! ## C9: the path normalizer -/

/-- C9 counterexample: `normalize_path` trims its input before the shape
dispatch, so the whitespace-only string, which matches neither the UNC nor
the drive-letter shape, is NOT returned unchanged; and a drive-letter path
additionally loses its trailing backslashes, so slash conversion plus
uppercasing alone does not describe the drive branch. -/
theorem c9_counterexample :
    strStartsWith " " "\\\\" = false ∧
    " ".data[1]? = none ∧
    normalize_path " " = .ok "" ∧
    (" " : String) ≠ "" ∧
    normalize_path "c:/x/" = .ok "C:\\x" ∧
    ("C:\\x" : String) ≠ "C:\\x\\" :=
  ⟨by decide, by decide, rfl, by decide, rfl, by decide⟩

/-- C9 (amended): `normalize_path` never fails; the spec's example is
reproduced; and the claimed shape contract holds for inputs carrying no
surrounding whitespace: a UNC path keeps its shape with forward slashes
converted to backslashes, and a string matching neither shape is returned
unchanged.  (In general the input is trimmed first, and a drive-letter
path also loses trailing backslashes, as the counterexample shows.) -/
theorem c9_path_normalization :
    (∀ s, ∃ r, normalize_path s = .ok r) ∧
    normalize_path "c:/windows/system32" = .ok "C:\\windows\\system32" ∧
    (∀ s, trimS s = s → strStartsWith s "\\\\" = true →
      normalize_path s = .ok (slashFix s)) ∧
    (∀ s, trimS s = s → strStartsWith s "\\\\" = false → s.data[1]? ≠ some ':' →
      normalize_path s = .ok s) := by
  refine ⟨?_, rfl, ?_, ?_⟩
  · intro s
    unfold normalize_path
    dsimp only
    split
    · exact ⟨_, rfl⟩
    · split
      · exact ⟨_, rfl⟩
      · exact ⟨_, rfl⟩
  · intro s ht hs
    simp [normalize_path, ht, hs]
  · intro s ht hs hc
    simp [normalize_path, ht, hs, hc]

/-- C9 witness: the amended contract evaluated at concrete inputs. -/
theorem c9_path_normalization_witness :
    normalize_path "\\\\server/share" = .ok "\\\\server\\share" ∧
    normalize_path "plain" = .ok "plain" := by
  constructor
  · exact c9_path_normalization.2.2.1 "\\\\server/share" (by decide) (by decide)
  · exact c9_path_normalization.2.2.2 "plain" (by decide) (by decide) (by decide)

/-! ## C5 and C6: the merge run's write/validate sequencing -/

/-- C5: a merge run whose synthesized document is rejected by the
post-merge validator ends with a validation error, and no output file is
written, whatever the requested output extension. -/
theorem c5_validation_failure_writes_nothing :
    ∀ (gate : Val → Bool) (docs : List MergeDoc) (ext : String) (n : Nat) (m : MSt),
      collectRun docs = (n, .ok m) →
      gate (build_merged_config m) = false →
      merge_configs gate docs ext = ⟨n, [], .error .validationError⟩ := by
  intro gate docs ext n m hc hg
  simp [merge_configs, build_merged_checked, hc, hg]

/-- C5 witness: the always-rejecting gate on the empty run. -/
theorem c5_validation_failure_writes_nothing_witness :
    merge_configs gateFalse [] "xml" = ⟨0, [], .error .validationError⟩ :=
  c5_validation_failure_writes_nothing gateFalse [] "xml" 0 ⟨none, []⟩ rfl rfl

theorem collectAux_ok_count :
    ∀ (docs : List MergeDoc) (n0 : Nat) (m0 : MSt) (n : Nat) (m : MSt),
      collectAux docs n0 m0 = (n, .ok m) → n = n0 + docs.length := by
  intro docs
  induction docs with
  | nil =>
    intro n0 m0 n m h
    simp [collectAux] at h
    simp [h.1]
  | cons d t ih =>
    intro n0 m0 n m h
    simp only [collectAux] at h
    cases hd : ingestDoc m0 d with
    | ok m1 =>
      rw [hd] at h
      have := ih (n0 + 1) m1 n m h
      simp [List.length_cons, this]
      omega
    | error e =>
      rw [hd] at h
      simp at h

/-- C6 counterexample: with one (well-formed, already parsed) input
document and the unsupported output extension `txt`, the run does fail
with `InvalidFile`, but only after the input document has been read: the
rejection does not happen before any input processing, contradicting the
claim. -/
theorem c6_counterexample :
    (merge_configs gateTrue docsC6 "txt").result = .error .invalidFile ∧
    (merge_configs gateTrue docsC6 "txt").docsRead = 1 ∧
    (merge_configs gateTrue docsC6 "txt").docsRead ≠ 0 :=
  ⟨rfl, rfl, by decide⟩

/-- C6 (amended): an output extension other than `json`/`xml` is rejected
with an `InvalidFile` error and no output file is written - but only after
every input document has been ingested and the merged document has been
built and has passed the post-merge gate; the extension is not examined
before processing. -/
theorem c6_unsupported_extension_after_processing :
    ∀ (gate : Val → Bool) (docs : List MergeDoc) (ext : String) (n : Nat) (m : MSt),
      collectRun docs = (n, .ok m) →
      gate (build_merged_config m) = true →
      ext ≠ "json" → ext ≠ "xml" →
      merge_configs gate docs ext = ⟨n, [], .error .invalidFile⟩ ∧ n = docs.length := by
  intro gate docs ext n m hc hg hj hx
  constructor
  · simp [merge_configs, build_merged_checked, hc, hg, hj, hx]
  · have := collectAux_ok_count docs 0 ⟨none, []⟩ n m hc
    omega

/-- C6 witness: the amended behavior on a one-document run. -/
theorem c6_unsupported_extension_after_processing_witness :
    merge_configs gateTrue docsC6 "txt" = ⟨1, [], .error .invalidFile⟩ ∧
    1 = docsC6.length :=
  c6_unsupported_extension_after_processing gateTrue docsC6 "txt" 1 ⟨none, []⟩
    rfl rfl (by decide) (by decide)

/-! ## C4: runs with no matching rules -/

/-- C4 counterexample: a document contributing one rule record whose only
event type is NetworkConnect - zero process-creation rules - still leads
to a merged root WITH an `EventFiltering` child, because the code keys the
`EventFiltering` section on the collected record list being non-empty, not
on any process-creation rule existing. -/
theorem c4_counterexample :
    collectDocs docsC4 = .ok ⟨none, [rgNC]⟩ ∧
    ((MSt.mk none [rgNC]).rules.filterMap fun r => getKey r "ProcessCreate").isEmpty
      = true ∧
    (getKey (build_merged_config ⟨none, [rgNC]⟩) "EventFiltering").isSome = true :=
  ⟨rfl, rfl, rfl⟩

/-- C4 (amended): merging zero documents, or only documents contributing
zero collected rule records, produces a root carrying a schema-version
attribute and no `EventFiltering` child.  (If records were collected but
none is process-creation, `EventFiltering` is still present, as the
counterexample shows.) -/
theorem c4_no_records_no_eventfiltering :
    ∀ (docs : List MergeDoc) (m : MSt), collectDocs docs = .ok m →
      m.rules.isEmpty = true →
      getKey (build_merged_config m) "@schemaversion"
          = some (Val.str (m.version.getD "4.30")) ∧
      getKey (build_merged_config m) "EventFiltering" = none := by
  intro docs m _ hr
  constructor
  · simp [build_merged_config, hr, getKey, insertR, vlookup]
  · simp [build_merged_config, hr, getKey, insertR, vlookup]

/-- C4 witness: the zero-document run. -/
theorem c4_no_records_no_eventfiltering_witness :
    getKey (build_merged_config ⟨none, []⟩) "@schemaversion"
        = some (Val.str "4.30") ∧
    getKey (build_merged_config ⟨none, []⟩) "EventFiltering" = none :=
  c4_no_records_no_eventfiltering [] ⟨none, []⟩ rfl rfl

/-! ## C10: shape of the markup-path rule records -/

/-- C10 counterexample: the outer rule group of `evtsC10` has two
non-attribute keys (`RuleGroup` and `ProcessCreate`), but the run collects
exactly one record, because the splitting loop skips keys named
`RuleGroup`: n non-attribute keys do not always yield n records. -/
theorem c10_counterexample :
    (process_xml_events ⟨none, []⟩ evtsC10).rules
        = [Val.obj [("@name", Val.str "g"), ("ProcessCreate", Val.obj [])]] ∧
    gOuterC10.countP (fun p => !(strStartsWith p.1 "@")) = 2 ∧
    (ruleRecordsOf gOuterC10).length = 1 :=
  ⟨rfl, by decide, rfl⟩

/-- C10 (amended): when a `RuleGroup` frame is popped under an open
`EventFiltering`, the ingestion appends exactly the records produced by
the splitting loop; each such record is an object made of every
`@`-prefixed entry of the originating group plus exactly one key that is
neither `@`-prefixed nor named `RuleGroup`, and the number of records is
the number of such keys (so n records for a group with n non-attribute
keys, provided none of them is named `RuleGroup`). -/
theorem c10_rule_record_shape :
    (∀ (st : PSt) a c rest ename,
      st.stack = ("RuleGroup", a, c) :: rest → st.inEF = true →
      (xmlStep st (.done ename)).rules
        = st.rules ++ ruleRecordsOf (c.foldl (fun o kv => insertR o kv.1 kv.2) a)) ∧
    (∀ g, (ruleRecordsOf g).length
        = g.countP (fun p => !(strStartsWith p.1 "@") && !(p.1 == "RuleGroup"))) ∧
    (∀ g r, r ∈ ruleRecordsOf g → ∃ k v, (k, v) ∈ g ∧
      strStartsWith k "@" = false ∧ k ≠ "RuleGroup" ∧
      r = Val.obj (g.filter (fun p => strStartsWith p.1 "@") ++ [(k, v)]) ∧
      (g.filter (fun p => strStartsWith p.1 "@") ++ [(k, v)]).countP
        (fun p => !(strStartsWith p.1 "@")) = 1) := by
  refine ⟨?_, ?_, ?_⟩
  · intro st a c rest ename hst hef
    simp only [xmlStep, hst, hef]
    split
    · simp
    · simp
  · intro g
    rw [ruleRecordsOf, length_filterMap_eq_countP]
    apply List.countP_congr
    intro kv _
    by_cases h1 : strStartsWith kv.1 "@" = false
    · by_cases h2 : kv.1 = "RuleGroup"
      · simp [h1, h2]
      · simp [h1, h2]
    · simp at h1
      simp [h1]
  · intro g r hr
    rw [ruleRecordsOf] at hr
    obtain ⟨kv, hmem, hf⟩ := List.mem_filterMap.1 hr
    by_cases hcond : strStartsWith kv.1 "@" = false ∧ kv.1 ≠ "RuleGroup"
    · rw [if_pos hcond] at hf
      refine ⟨kv.1, kv.2, hmem, hcond.1, hcond.2, (Option.some_inj.1 hf).symm, ?_⟩
      rw [List.countP_append]
      have hz : (g.filter (fun p => strStartsWith p.1 "@")).countP
          (fun p => !(strStartsWith p.1 "@")) = 0 := by
        rw [List.countP_eq_zero]
        intro a ha
        have := (List.mem_filter.1 ha).2
        simp [this]
      rw [hz]
      simp [List.countP_cons, hcond.1]
    · rw [if_neg hcond] at hf
      exact absurd hf (by simp)

/-- C10 witness: the machine part of the record-shape theorem evaluated on
a concrete stack frame. -/
theorem c10_rule_record_shape_witness :
    (xmlStep stC10 (.done "RuleGroup")).rules
      = [] ++ ruleRecordsOf
          ([("ProcessCreate", Val.obj [])].foldl
            (fun o kv => insertR o kv.1 kv.2) [("@name", Val.str "g")]) :=
  c10_rule_record_shape.1 stC10 [("@name", Val.str "g")]
    [("ProcessCreate", Val.obj [])] [] "RuleGroup" rfl rfl

/-! ## C3: first-seen-wins schema version -/

theorem oFirst_none_left (b : Option String) : oFirst none b = b := rfl

theorem oFirst_none_right (a : Option String) : oFirst a none = a := by
  cases a <;> rfl

theorem versionAfterAttrs_cons (name : String) (v0 : Option String)
    (kv : String × String) (t : List (String × String)) :
    versionAfterAttrs name v0 (kv :: t)
      = versionAfterAttrs name
          (if name = "Sysmon" ∧ kv.1 = "schemaversion" ∧ v0 = none
            then some kv.2 else v0) t := rfl

theorem versionAfterAttrs_some :
    ∀ (attrs : List (String × String)) (name a : String),
      versionAfterAttrs name (some a) attrs = some a := by
  intro attrs
  induction attrs with
  | nil => intro name a; rfl
  | cons kv t ih =>
    intro name a
    rw [versionAfterAttrs_cons,
      if_neg (by rintro ⟨-, -, h⟩; exact Option.noConfusion h)]
    exact ih name a

theorem versionAfterAttrs_none :
    ∀ (attrs : List (String × String)) (name : String),
      versionAfterAttrs name none attrs = evVersion (.start name attrs) := by
  intro attrs name
  by_cases hn : name = "Sysmon"
  · subst hn
    induction attrs with
    | nil => rfl
    | cons kv t ih =>
      by_cases hk : kv.1 = "schemaversion"
      · rw [versionAfterAttrs_cons, if_pos ⟨rfl, hk, rfl⟩, versionAfterAttrs_some]
        simp [evVersion, List.find?_cons, hk]
      · rw [versionAfterAttrs_cons, if_neg (by rintro ⟨-, h, -⟩; exact hk h), ih]
        simp [evVersion, List.find?_cons, hk]
  · have hfold : ∀ t : List (String × String), versionAfterAttrs name none t = none := by
      intro t
      induction t with
      | nil => rfl
      | cons kv t2 ih2 =>
        rw [versionAfterAttrs_cons, if_neg (by rintro ⟨h, -, -⟩; exact hn h)]
        exact ih2
    rw [hfold]
    simp [evVersion, hn]

theorem versionAfterAttrs_oFirst (name : String) (v0 : Option String)
    (attrs : List (String × String)) :
    versionAfterAttrs name v0 attrs = oFirst v0 (evVersion (.start name attrs)) := by
  cases v0 with
  | none => rw [versionAfterAttrs_none]; rfl
  | some a => rw [versionAfterAttrs_some]; rfl

theorem xmlStep_version (st : PSt) (e : XEvent) :
    (xmlStep st e).version = oFirst st.version (evVersion e) := by
  cases e with
  | start name attrs => simpa [xmlStep] using versionAfterAttrs_oFirst name st.version attrs
  | text s =>
    cases hs : st.stack with
    | nil => simp [xmlStep, hs, evVersion, oFirst_none_right]
    | cons fr rest =>
      obtain ⟨n, a, c⟩ := fr
      simp only [xmlStep, hs, evVersion, oFirst_none_right]
      split <;> rfl
  | done ename =>
    simp only [xmlStep, evVersion, oFirst_none_right]
    cases hs : st.stack with
    | nil => split <;> rfl
    | cons fr rest =>
      obtain ⟨n, a, c⟩ := fr
      split <;> rfl
  | empty name attrs => simp [xmlStep, evVersion, oFirst_none_right]

theorem foldl_xmlStep_version :
    ∀ (evs : List XEvent) (st : PSt),
      (evs.foldl xmlStep st).version
        = oFirst st.version ((evs.filterMap evVersion).head?) := by
  intro evs
  induction evs with
  | nil => intro st; simp [oFirst_none_right]
  | cons e t ih =>
    intro st
    rw [List.foldl_cons, ih, xmlStep_version]
    cases he : evVersion e <;> cases hv : st.version <;>
      simp [List.filterMap_cons, he, hv, oFirst]

theorem ingestDoc_version :
    ∀ (m : MSt) (d : MergeDoc) (m' : MSt), ingestDoc m d = .ok m' →
      m'.version = oFirst m.version (docVersion d) := by
  intro m d m' h
  cases d with
  | xml evs =>
    simp only [ingestDoc, Except.ok.injEq] at h
    subst h
    simp [process_xml_events, foldl_xmlStep_version, docVersion]
  | json j =>
    cases j with
    | obj o =>
      simp only [ingestDoc, process_json_value, Except.ok.injEq] at h
      subst h
      cases hv : m.version with
      | some a => simp [docVersion, hv, oFirst]
      | none =>
        cases hlk : vlookup o "@schemaversion" with
        | none => simp [docVersion, hv, hlk, oFirst]
        | some v => cases v <;> simp [docVersion, hv, hlk, oFirst]
    | null => simp [ingestDoc, process_json_value] at h
    | bool b => simp [ingestDoc, process_json_value] at h
    | num n => simp [ingestDoc, process_json_value] at h
    | str s => simp [ingestDoc, process_json_value] at h
    | arr l => simp [ingestDoc, process_json_value] at h

theorem collectAux_version :
    ∀ (docs : List MergeDoc) (n0 : Nat) (m0 : MSt) (n : Nat) (m : MSt),
      collectAux docs n0 m0 = (n, .ok m) →
      m.version = oFirst m0.version ((docs.filterMap docVersion).head?) := by
  intro docs
  induction docs with
  | nil =>
    intro n0 m0 n m h
    simp [collectAux] at h
    rw [← h.2]
    simp [oFirst_none_right]
  | cons d t ih =>
    intro n0 m0 n m h
    simp only [collectAux] at h
    cases hd : ingestDoc m0 d with
    | error e => rw [hd] at h; simp at h
    | ok m1 =>
      rw [hd] at h
      have h1 := ih (n0 + 1) m1 n m h
      have h2 := ingestDoc_version m0 d m1 hd
      rw [h1, h2]
      cases hdv : docVersion d <;> cases hv : m0.version <;>
        simp [List.filterMap_cons, hdv, hv, oFirst]

/-- Root schema-version lookup of the merged document, independent of the
collected rules. -/
theorem build_merged_config_version (m : MSt) :
    getKey (build_merged_config m) "@schemaversion"
      = some (Val.str (m.version.getD "4.30")) := by
  cases hr : m.rules.isEmpty <;>
    simp [build_merged_config, hr, getKey, insertR, vlookup]

/-- C3: across any successful merge run, the merged root's schema-version
attribute is the version extracted from the first ingested document that
carried one (`docVersion` being exactly the engine's extraction on each
form), later documents' versions being ignored, with the fixed fallback
"4.30" when no document carried one. -/
theorem c3_schema_version_first_seen :
    ∀ (docs : List MergeDoc) (m : MSt), collectDocs docs = .ok m →
      getKey (build_merged_config m) "@schemaversion"
        = some (Val.str (((docs.filterMap docVersion).head?).getD "4.30")) := by
  intro docs m hc
  have hv : m.version = (docs.filterMap docVersion).head? := by
    unfold collectDocs collectRun at hc
    cases hcr : collectAux docs 0 ⟨none, []⟩ with
    | mk n r =>
      rw [hcr] at hc
      dsimp at hc
      rw [hc] at hcr
      have := collectAux_version docs 0 ⟨none, []⟩ n m hcr
      simpa [oFirst] using this
  rw [build_merged_config_version, hv]

/-- C3 witness: two documents with differing versions; the first one
wins. -/
theorem c3_schema_version_first_seen_witness :
    getKey (build_merged_config ⟨some "9.99", []⟩) "@schemaversion"
      = some (Val.str "9.99") :=
  c3_schema_version_first_seen docsC3 ⟨some "9.99", []⟩ rfl

/-! ## C1: shape of the consolidated output -/

theorem isEmpty_false_of_filterMap {α β : Type} (f : α → Option β) (l : List α)
    (h : (l.filterMap f).isEmpty = false) : l.isEmpty = false := by
  cases l with
  | nil => simp [List.filterMap_nil] at h
  | cons a t => rfl

/-- C1: every merge run whose collected records include process-creation
entries produces a root with exactly one `RuleGroup` (named `MergedRules`,
group relation `or`) under a single `EventFiltering`, holding one
synthesized process-creation block with `onmatch` `include` whose image
list concatenates, in collection order, the `Image` entries pulled from
the collected process-creation rules; records of other event types
contribute nothing (the output depends only on the `ProcessCreate`
projections). -/
theorem c1_consolidated_rules :
    ∀ (docs : List MergeDoc) (m : MSt), collectDocs docs = .ok m →
      (m.rules.filterMap fun r => getKey r "ProcessCreate").isEmpty = false →
      build_merged_config m
        = Val.obj [("@schemaversion", Val.str (m.version.getD "4.30")),
            ("EventFiltering", Val.obj [("RuleGroup", Val.obj
              [("@name", Val.str "MergedRules"),
               ("@groupRelation", Val.str "or"),
               ("ProcessCreate", Val.obj
                 [("@onmatch", Val.str "include"),
                  ("Image", Val.arr
                    ((m.rules.filterMap fun r => getKey r "ProcessCreate").filterMap
                      fun pc => getKey pc "Image"))])])])] := by
  intro docs m hc hpcs
  have hr : m.rules.isEmpty = false := isEmpty_false_of_filterMap _ _ hpcs
  simp [build_merged_config, hr, hpcs, insertR]

/-- C1 witness: the spec's two-document example with image paths `A.exe`
and `B.exe`, in collection order. -/
theorem c1_consolidated_rules_witness :
    collectDocs docsC1 = .ok ⟨some "4.30", [rgA, rgB]⟩ ∧
    build_merged_config ⟨some "4.30", [rgA, rgB]⟩
      = Val.obj [("@schemaversion", Val.str "4.30"),
          ("EventFiltering", Val.obj [("RuleGroup", Val.obj
            [("@name", Val.str "MergedRules"),
             ("@groupRelation", Val.str "or"),
             ("ProcessCreate", Val.obj
               [("@onmatch", Val.str "include"),
                ("Image", Val.arr
                  [Val.obj [("@condition", Val.str "is"), ("$text", Val.str "A.exe")],
                   Val.obj [("@condition", Val.str "is"), ("$text", Val.str "B.exe")]])])])])] :=
  ⟨rfl, c1_consolidated_rules docsC1 ⟨some "4.30", [rgA, rgB]⟩ rfl rfl⟩

/-! ## C8: the reader's text invariant -/

theorem eok_nil : EOk [] := by
  intro kv h
  exact absurd h (List.not_mem_nil kv)

theorem eok_insertR {l : List (String × Val)} {k : String} {v : Val}
    (hl : EOk l) (hv : TextOk v) (hk : k = "$text" → okStr v) :
    EOk (insertR l k v) := by
  intro kv hkv
  rcases mem_insertR hkv with h | h
  · exact hl kv h
  · rw [h]
    exact ⟨hv, hk⟩

theorem eok_foldl_insertR :
    ∀ (ch : List (String × Val)) (base : List (String × Val)), EOk base →
      (∀ kv, kv ∈ ch → kv.1 ≠ "$text" ∧ TextOk kv.2) →
      EOk (ch.foldl (fun o kv => insertR o kv.1 kv.2) base) := by
  intro ch
  induction ch with
  | nil => intro base hb _; exact hb
  | cons a t ih =>
    intro base hb hch
    rw [List.foldl_cons]
    apply ih
    · exact eok_insertR hb (hch a (by simp)).2
        (fun hk => absurd hk (hch a (by simp)).1)
    · intro kv hkv
      exact hch kv (by simp [hkv])

theorem eok_attrsToObj (attrs : List (String × String)) : EOk (attrsToObj attrs) := by
  have gen : ∀ (l : List (String × String)) (base : List (String × Val)), EOk base →
      EOk (l.foldl (fun o kv => insertR o (attrKey kv.1) (Val.str kv.2)) base) := by
    intro l
    induction l with
    | nil => intro base hb; exact hb
    | cons a t ih =>
      intro base hb
      rw [List.foldl_cons]
      apply ih
      exact eok_insertR hb (TextOk.str _) (fun hk => absurd hk (attrKey_ne_text a.1))
  exact gen attrs [] eok_nil

theorem textOk_of_eok {l : List (String × Val)} (h : EOk l) : TextOk (.obj l) :=
  TextOk.obj l (fun kv hkv => (h kv hkv).1) (fun kv hkv => (h kv hkv).2)

theorem goodNames_cons {e : XEvent} {t : List XEvent}
    (h : goodNames (e :: t) = true) :
    goodNames t = true ∧ (∀ n attrs, e = .start n attrs → n ≠ "$text") := by
  rw [goodNames, List.all_cons] at h
  obtain ⟨h1, h2⟩ := Bool.and_eq_true_iff.1 h
  refine ⟨h2, ?_⟩
  intro n attrs he
  subst he
  simpa using h1

theorem okStr_trim (t : String) (hne : ¬(trimChars t.data).isEmpty = true) :
    okStr (Val.str (trimS t)) := by
  refine ⟨trimS t, rfl, ?_, trimS_idem t⟩
  intro he
  apply hne
  have hd : trimChars t.data = ([] : List Char) := congrArg String.data he
  rw [hd]
  rfl

theorem readF_textOk :
    ∀ f : Nat,
      (∀ evs, goodNames evs = true →
        (∀ v rest, readValueF f evs = (some v, rest) → TextOk v) ∧
        goodNames (readValueF f evs).2 = true) ∧
      (∀ evs, goodNames evs = true →
        (∀ kv, kv ∈ (readInnerF f evs).2.1 → kv.1 ≠ "$text" ∧ TextOk kv.2) ∧
        goodNames (readInnerF f evs).2.2 = true) := by
  intro f
  induction f with
  | zero =>
    constructor
    · intro evs hg
      refine ⟨?_, ?_⟩
      · intro v rest h
        simp only [readValueF] at h
        simp at h
      · simpa only [readValueF] using hg
    · intro evs hg
      refine ⟨?_, ?_⟩
      · intro kv hkv
        simp only [readInnerF] at hkv
        exact absurd hkv (List.not_mem_nil kv)
      · simpa only [readInnerF] using hg
  | succ f ih =>
    obtain ⟨ihV, ihI⟩ := ih
    constructor
    · intro evs hg
      cases evs with
      | nil =>
        refine ⟨?_, ?_⟩
        · intro v rest h
          simp only [readValueF] at h
          simp at h
        · rfl
      | cons e rest0 =>
        obtain ⟨hg0, hname⟩ := goodNames_cons hg
        cases e with
        | start name attrs =>
          have hn : name ≠ "$text" := hname name attrs rfl
          obtain ⟨hch, hrest⟩ := ihI rest0 hg0
          refine ⟨?_, ?_⟩
          · intro v rest h
            simp only [readValueF] at h
            have h1 := congrArg Prod.fst h
            dsimp at h1
            have hv := Option.some_inj.1 h1
            rw [← hv]
            have hobj1 : EOk (if (trimChars (readInnerF f rest0).1.data).isEmpty
                then attrsToObj attrs
                else insertR (attrsToObj attrs) "$text"
                  (Val.str (trimS (readInnerF f rest0).1))) := by
              split
              · exact eok_attrsToObj attrs
              · next hne =>
                exact eok_insertR (eok_attrsToObj attrs) (TextOk.str _)
                  (fun _ => okStr_trim _ hne)
            have hobj2 := eok_foldl_insertR (readInnerF f rest0).2.1 _ hobj1 hch
            apply textOk_of_eok
            intro kv hkv
            rcases mem_insertR hkv with hmem | hmem
            · exact absurd hmem (List.not_mem_nil kv)
            · rw [hmem]
              exact ⟨textOk_of_eok hobj2, fun hk => absurd hk hn⟩
          · simp only [readValueF]
            exact hrest
        | text s =>
          refine ⟨?_, ?_⟩
          · intro v rest h
            simp only [readValueF] at h
            split at h
            · exact (ihV rest0 hg0).1 v rest h
            · have h1 := congrArg Prod.fst h
              dsimp at h1
              rw [← Option.some_inj.1 h1]
              exact TextOk.str _
          · simp only [readValueF]
            split
            · exact (ihV rest0 hg0).2
            · exact hg0
        | done n =>
          refine ⟨?_, ?_⟩
          · intro v rest h
            simp only [readValueF] at h
            exact (ihV rest0 hg0).1 v rest h
          · simp only [readValueF]
            exact (ihV rest0 hg0).2
        | empty n attrs =>
          refine ⟨?_, ?_⟩
          · intro v rest h
            simp only [readValueF] at h
            exact (ihV rest0 hg0).1 v rest h
          · simp only [readValueF]
            exact (ihV rest0 hg0).2
    · intro evs hg
      cases evs with
      | nil =>
        refine ⟨?_, ?_⟩
        · intro kv hkv
          simp only [readInnerF] at hkv
          exact absurd hkv (List.not_mem_nil kv)
        · rfl
      | cons e rest0 =>
        obtain ⟨hg0, hname⟩ := goodNames_cons hg
        cases e with
        | start cname cattrs =>
          have hn : cname ≠ "$text" := hname cname cattrs rfl
          obtain ⟨hvOk, hrest1⟩ := ihV rest0 hg0
          refine ⟨?_, ?_⟩
          · intro kv hkv
            simp only [readInnerF] at hkv
            cases hrv : readValueF f rest0 with
            | mk ov rest1 =>
              rw [hrv] at hkv
              have hr1 : goodNames rest1 = true := by
                rw [hrv] at hrest1
                exact hrest1
              cases ov with
              | some cv =>
                dsimp at hkv
                rcases List.mem_cons.1 hkv with hmem | hmem
                · rw [hmem]
                  exact ⟨hn, hvOk cv rest1 hrv⟩
                · exact (ihI rest1 hr1).1 kv hmem
              | none =>
                dsimp at hkv
                exact (ihI rest1 hr1).1 kv hkv
          · simp only [readInnerF]
            cases hrv : readValueF f rest0 with
            | mk ov rest1 =>
              have hr1 : goodNames rest1 = true := by
                rw [hrv] at hrest1
                exact hrest1
              cases ov with
              | some cv =>
                dsimp
                exact (ihI rest1 hr1).2
              | none =>
                dsimp
                exact (ihI rest1 hr1).2
        | text s =>
          refine ⟨?_, ?_⟩
          · intro kv hkv
            simp only [readInnerF] at hkv
            exact (ihI rest0 hg0).1 kv hkv
          · simp only [readInnerF]
            exact (ihI rest0 hg0).2
        | done n =>
          refine ⟨?_, ?_⟩
          · intro kv hkv
            simp only [readInnerF] at hkv
            exact absurd hkv (List.not_mem_nil kv)
          · simp only [readInnerF]
            exact hg0
        | empty n cattrs =>
          refine ⟨?_, ?_⟩
          · intro kv hkv
            simp only [readInnerF] at hkv
            exact (ihI rest0 hg0).1 kv hkv
          · simp only [readInnerF]
            exact (ihI rest0 hg0).2

/-- C8: parsing any markup event stream (tag names of real markup can
never be the reserved key `$text`), every object anywhere in the reader's
result keeps under `$text` only non-empty strings that are fixed points of
trimming - equivalently, the stored value is the trimmed text content and
whitespace-only text is never stored (a whitespace-only or empty payload
would not be a non-empty trimming fixed point). -/
theorem c8_text_trimmed :
    ∀ (f : Nat) (evs : List XEvent) (v : Val) (rest : List XEvent),
      goodNames evs = true → readValueF f evs = (some v, rest) → TextOk v :=
  fun f evs v rest hg h => ((readF_textOk f).1 evs hg).1 v rest h

/-- C8 witness: the invariant evaluated on a concrete stream whose text
carries surrounding whitespace. -/
theorem c8_text_trimmed_witness :
    TextOk (Val.obj [("Sysmon",
      Val.obj [("@schemaversion", Val.str "4.30"), ("$text", Val.str "hi")])]) :=
  c8_text_trimmed 8 evtsC8
    (Val.obj [("Sysmon",
      Val.obj [("@schemaversion", Val.str "4.30"), ("$text", Val.str "hi")])])
    [] (by decide) rfl
